import Mathlib

/-!
# Verification of the DriveBay booking and listing core

This file gives a shallow embedding of the booking-lifecycle and
interval-conflict logic of the DriveBay marketplace application and proves
properties of it.

Sources embedded:
* the App component (time parsing, addListing, updateListing, requestBooking,
  approveBooking, denyBooking, cancelBookingByUser, cancelBookingByOwner,
  deleteBooking);
* the firestoreService query helpers (getExistingBookingsForListing,
  checkForExistingListing) — modelled as pure queries over an explicit
  application state, with the error-swallowing try/catch of
  getExistingBookingsForListing modelled by an explicit query-result argument;
* the ListingForm helper timeToMinutes (a second, different time parser);
* the ProfileView delete guard canDelete.

Modelling conventions:
* Firestore documents become lists inside an AppState record; document ids
  become Nat.  Updating a document by id becomes a map over the list keyed on
  the id; deleting becomes a filter.
* JavaScript NaN results of the main time parser become Option.none.
* JavaScript string comparison (code-unit lexicographic) is embedded as
  strLt below; the source compares raw time strings with < and > in
  addListing and in the updateListing cancellation loop.
* Fields that never influence the embedded control flow (state, country,
  rate, contactEmail, description, ownerId, user identities, notification
  side effects) are omitted: no branch of the embedded code reads them.
-/

namespace DriveBay

/-- Booking lifecycle status, from the status union type in types.ts. -/
inductive BookingStatus where
  | pending
  | confirmed
  | denied
  | canceled_by_user
  | canceled_by_owner
deriving DecidableEq, Repr

/-- A booking document (types.ts).  Only the fields read by the embedded
logic are kept. -/
structure Booking where
  id : Nat
  listingId : Nat
  date : String
  startTime : String
  endTime : String
  status : BookingStatus
deriving DecidableEq, Repr

/-- A listing document (types.ts).  Only the fields read by the embedded
logic are kept. -/
structure Listing where
  id : Nat
  address : String
  city : String
  zipCode : String
  date : String
  startTime : String
  endTime : String
deriving DecidableEq, Repr

/-- The payload of addListing / updateListing (a Listing without its id). -/
structure ListingData where
  address : String
  city : String
  zipCode : String
  date : String
  startTime : String
  endTime : String
deriving DecidableEq, Repr

/-- The durable store: the listings and bookings collections. -/
structure AppState where
  listings : List Listing
  bookings : List Booking
deriving DecidableEq, Repr

/-! ## Time parsing

The App component (and, verbatim, ConfirmationModal.tsx) defines

  timeToMinutes(timeStr) =
    if not /^\d{1,2}:\d{2}$/ test then NaN
    else with hours, minutes the two colon-separated numbers,
      NaN when hours outside 0..23 or minutes outside 0..59,
      otherwise hours*60 + minutes.

We embed NaN as Option.none.  The regular expression is unfolded into the
two possible shapes of the character list: one hour digit or two hour
digits, then a colon, then exactly two minute digits. -/

/-- Embeds the regular-expression digit class (code points 48 to 57). -/
def isDigitChar (c : Char) : Bool :=
  decide (48 ≤ c.toNat) && decide (c.toNat ≤ 57)

/-- Numeric value of a digit character. -/
def digitVal (c : Char) : Nat := c.toNat - 48

/-- timeToMinutes of the App component, on the underlying character list.
The source's isNaN and hours-below-zero guards are vacuous once the regular
expression has matched (both parts are digit runs), so only the upper range
checks remain. -/
def timeToMinutesList : List Char → Option Nat
  | [h1, c, m1, m2] =>
    if isDigitChar h1 && (c == ':') && isDigitChar m1 && isDigitChar m2 then
      let hours := digitVal h1
      let minutes := 10 * digitVal m1 + digitVal m2
      if decide (hours ≤ 23) && decide (minutes ≤ 59) then some (hours * 60 + minutes) else none
    else none
  | [h1, h2, c, m1, m2] =>
    if isDigitChar h1 && isDigitChar h2 && (c == ':') && isDigitChar m1 && isDigitChar m2 then
      let hours := 10 * digitVal h1 + digitVal h2
      let minutes := 10 * digitVal m1 + digitVal m2
      if decide (hours ≤ 23) && decide (minutes ≤ 59) then some (hours * 60 + minutes) else none
    else none
  | _ => none

/-- timeToMinutes of the App component (also used, verbatim identical, in
ConfirmationModal.tsx).  none plays the role of NaN. -/
def timeToMinutes (s : String) : Option Nat := timeToMinutesList s.data

/-- A digit character from its value. -/
def digitChar (n : Nat) : Char := Char.ofNat (48 + n)

/-- The zero-padded rendering HH:MM of an hour and minute value. -/
def renderTime2 (h m : Nat) : String :=
  String.mk [digitChar (h / 10), digitChar (h % 10), ':', digitChar (m / 10), digitChar (m % 10)]

/-- The unpadded rendering H:MM of a one-digit hour and a minute value. -/
def renderTime1 (h m : Nat) : String :=
  String.mk [digitChar h, ':', digitChar (m / 10), digitChar (m % 10)]

/-! ## The ListingForm time parser

ListingForm has its own timeToMinutes: split on the colon, require exactly
two parts, parseInt both with radix 10, and return hours*60 + minutes when
both parse, with no range check; -1 is its invalid marker. -/

/-- Accumulate the value of a leading run of digits, stopping at the first
non-digit, as JavaScript parseInt does after its prefix handling. -/
def digitsVal : List Char → Nat → Nat
  | [], acc => acc
  | c :: cs, acc => if isDigitChar c then digitsVal cs (10 * acc + digitVal c) else acc

/-- The digits of a leading digit run, or none when the first character is
not a digit. -/
def parseNatPrefix : List Char → Option Nat
  | [] => none
  | c :: cs => if isDigitChar c then some (digitsVal (c :: cs) 0) else none

/-- JavaScript parseInt with radix 10: skip leading whitespace, accept an
optional sign, then require at least one digit and read the digit prefix.
none plays the role of NaN. -/
def parseInt10 (l : List Char) : Option Int :=
  match l.dropWhile (fun c => c.isWhitespace) with
  | '-' :: rest => (parseNatPrefix rest).map (fun n => -(n : Int))
  | '+' :: rest => (parseNatPrefix rest).map (fun n => (n : Int))
  | rest => (parseNatPrefix rest).map (fun n => (n : Int))

/-- JavaScript String.prototype.split with separator colon. -/
def splitColon : List Char → List (List Char)
  | [] => [[]]
  | c :: cs =>
    if c = ':' then [] :: splitColon cs
    else
      match splitColon cs with
      | [] => [[c]]
      | h :: t => (c :: h) :: t

/-- timeToMinutes of ListingForm.tsx: its invalid marker is -1 and it does
not range-check hours or minutes. -/
def formTimeToMinutes (s : String) : Int :=
  match splitColon s.data with
  | [p1, p2] =>
    match parseInt10 p1, parseInt10 p2 with
    | some hours, some minutes => hours * 60 + minutes
    | _, _ => -1
  | _ => -1

/-! ## JavaScript string comparison

addListing and the cancellation loop of updateListing compare raw time
strings with < and >, which in JavaScript is code-unit lexicographic
order. -/

/-- Code-unit lexicographic strictly-less-than on character lists. -/
def strLtAux : List Char → List Char → Bool
  | [], [] => false
  | [], _ :: _ => true
  | _ :: _, [] => false
  | a :: as, b :: bs =>
    if a.toNat < b.toNat then true
    else if b.toNat < a.toNat then false
    else strLtAux as bs

/-- JavaScript string strictly-less-than. -/
def strLt (s t : String) : Bool := strLtAux s.data t.data

/-! ## The interval overlap check of approveBooking -/

/-- A JavaScript < comparison where either side may be NaN: NaN compares
false against everything. -/
def nanLt : Option Nat → Option Nat → Bool
  | some a, some b => decide (a < b)
  | _, _ => false

/-- The body of the conflict callback in approveBooking: return false when
the confirmed booking's minutes are NaN, otherwise
requestStart < existingEnd and requestEnd > existingStart (both comparisons
also false when the request's own minutes are NaN). -/
def overlapsCheck (reqS reqE exS exE : Option Nat) : Bool :=
  if exS.isNone || exE.isNone then false
  else nanLt reqS exE && nanLt exS reqE

/-! ## Store queries (firestoreService) -/

/-- getExistingBookingsForListing: all bookings matching listingId and
date. -/
def getExistingBookingsForListing (st : AppState) (listingId : Nat) (date : String) :
    List Booking :=
  st.bookings.filter (fun b => decide (b.listingId = listingId) && decide (b.date = date))

/-- checkForExistingListing: all listings matching address, city, zipCode
and date. -/
def checkForExistingListing (st : AppState) (d : ListingData) : List Listing :=
  st.listings.filter (fun l =>
    decide (l.address = d.address) && decide (l.city = d.city) &&
      decide (l.zipCode = d.zipCode) && decide (l.date = d.date))

/-- The try/catch of getExistingBookingsForListing: a failed store query is
swallowed and yields the empty list. -/
def queryRecover (qres : Except String (List Booking)) : List Booking :=
  match qres with
  | Except.ok bs => bs
  | Except.error _ => []

/-- updateBookingStatusInFirestore together with the local setBookings map:
set the status of every booking with the given id. -/
def setStatus (bs : List Booking) (bookingId : Nat) (status : BookingStatus) : List Booking :=
  bs.map (fun b => if decide (b.id = bookingId) then { b with status := status } else b)

/-! ## Booking lifecycle operations (App component) -/

/-- Outcome of approveBooking as seen by the caller. -/
inductive ApproveResult where
  | conflict
  | approved
deriving DecidableEq, Repr

/-- Outcome of addListing as seen by the caller. -/
inductive AddListingResult where
  | duplicate
  | added
deriving DecidableEq, Repr

/-- The isConflict scan of approveBooking over a given list of fetched
bookings: keep those with status confirmed, and test each against the
requested window with overlapsCheck. -/
def approveConflictOn (bs : List Booking) (booking : Booking) : Bool :=
  (bs.filter (fun b => decide (b.status = BookingStatus.confirmed))).any
    (fun cb => overlapsCheck (timeToMinutes booking.startTime) (timeToMinutes booking.endTime)
      (timeToMinutes cb.startTime) (timeToMinutes cb.endTime))

/-- approveBooking with the store query result made explicit, so that the
swallowed-error path of getExistingBookingsForListing is also in scope: on
conflict nothing changes, otherwise the booking's status is set to
confirmed. -/
def approveBookingWithQuery (st : AppState) (booking : Booking)
    (qres : Except String (List Booking)) : ApproveResult × AppState :=
  if approveConflictOn (queryRecover qres) booking then (ApproveResult.conflict, st)
  else (ApproveResult.approved,
    { st with bookings := setStatus st.bookings booking.id BookingStatus.confirmed })

/-- approveBooking: fetch all bookings on the booking's (listingId, date),
scan the confirmed ones for a window conflict, refuse on conflict and
otherwise confirm.  There is no status precondition in the source. -/
def approveBooking (st : AppState) (booking : Booking) : ApproveResult × AppState :=
  approveBookingWithQuery st booking
    (Except.ok (getExistingBookingsForListing st booking.listingId booking.date))

/-- requestBooking: refuse (none) when either time fails to parse, else
create a pending booking on the listing's id and date. -/
def requestBooking (st : AppState) (listing : Listing) (startTime endTime : String)
    (newId : Nat) : Option (Booking × AppState) :=
  if (timeToMinutes startTime).isNone || (timeToMinutes endTime).isNone then none
  else
    let newBooking : Booking :=
      { id := newId
        listingId := listing.id
        date := listing.date
        startTime := startTime
        endTime := endTime
        status := BookingStatus.pending }
    some (newBooking, { st with bookings := newBooking :: st.bookings })

/-- denyBooking: set status denied (no precondition in the source). -/
def denyBooking (st : AppState) (booking : Booking) : AppState :=
  { st with bookings := setStatus st.bookings booking.id BookingStatus.denied }

/-- cancelBookingByUser: set status canceled_by_user. -/
def cancelBookingByUser (st : AppState) (booking : Booking) : AppState :=
  { st with bookings := setStatus st.bookings booking.id BookingStatus.canceled_by_user }

/-- cancelBookingByOwner: set status canceled_by_owner. -/
def cancelBookingByOwner (st : AppState) (booking : Booking) : AppState :=
  { st with bookings := setStatus st.bookings booking.id BookingStatus.canceled_by_owner }

/-- deleteBooking: physically remove the booking with the given id.  The
source performs no status check here. -/
def deleteBooking (st : AppState) (bookingId : Nat) : AppState :=
  { st with bookings := st.bookings.filter (fun b => !decide (b.id = bookingId)) }

/-- The delete guard of ProfileView's BookingCard: the delete action is only
offered for these statuses. -/
def canDelete (status : BookingStatus) : Bool :=
  decide (status = BookingStatus.canceled_by_user) || decide (status = BookingStatus.denied)
    || decide (status = BookingStatus.canceled_by_owner)

/-! ## Listing operations (App component) -/

/-- The condition under which the updateListing loop force-cancels a fetched
booking: date mismatch with the new data, or the raw time strings compare
outside the new window, and the booking is confirmed or pending.  The
comparisons are JavaScript string comparisons. -/
def cancelCond (d : ListingData) (booking : Booking) : Bool :=
  (!decide (d.date = booking.date) || strLt booking.startTime d.startTime
      || strLt d.endTime booking.endTime)
    && (decide (booking.status = BookingStatus.confirmed)
      || decide (booking.status = BookingStatus.pending))

/-- One iteration of the cancellation loop of updateListing. -/
def cascadeStep (d : ListingData) (st : AppState) (booking : Booking) : AppState :=
  if cancelCond d booking then cancelBookingByOwner st booking else st

/-- Merging the update payload into a listing. -/
def applyListingData (l : Listing) (d : ListingData) : Listing :=
  { l with
    address := d.address
    city := d.city
    zipCode := d.zipCode
    date := d.date
    startTime := d.startTime
    endTime := d.endTime }

/-- updateListing: fetch bookings for (listingId, d.date) — the NEW date —
run the cancellation loop over them, then write the listing update. -/
def updateListing (st : AppState) (listingId : Nat) (d : ListingData) : AppState :=
  let existingBookings := getExistingBookingsForListing st listingId d.date
  let st1 := existingBookings.foldl (cascadeStep d) st
  let newListings :=
    st1.listings.map (fun l => if decide (l.id = listingId) then applyListingData l d else l)
  { st1 with listings := newListings }

/-- The fresh listing inserted by addListing. -/
def mkListing (id : Nat) (d : ListingData) : Listing :=
  { id := id
    address := d.address
    city := d.city
    zipCode := d.zipCode
    date := d.date
    startTime := d.startTime
    endTime := d.endTime }

/-- addListing: query listings with identical address, city, zipCode and
date; reject as duplicate when any of them overlaps by raw-string time
comparison, otherwise insert.  newId stands for the Firestore-generated
document id. -/
def addListing (st : AppState) (d : ListingData) (newId : Nat) :
    AddListingResult × AppState :=
  let potentialDuplicates := checkForExistingListing st d
  let isDuplicate := potentialDuplicates.any
    (fun existing => strLt d.startTime existing.endTime && strLt existing.startTime d.endTime)
  if isDuplicate then (AddListingResult.duplicate, st)
  else (AddListingResult.added, { st with listings := mkListing newId d :: st.listings })

/-! ## Specification-side predicates -/

/-- Two windows, given as time strings, strictly overlap: all four strings
parse and the open intervals share a point. -/
def WindowsOverlap (aStart aEnd bStart bEnd : String) : Prop :=
  ∃ a b c d, timeToMinutes aStart = some a ∧ timeToMinutes aEnd = some b ∧
    timeToMinutes bStart = some c ∧ timeToMinutes bEnd = some d ∧ a < d ∧ c < b

/-- Booking x's requested window strictly overlaps booking y's window. -/
def OverlapsB (x y : Booking) : Prop :=
  WindowsOverlap x.startTime x.endTime y.startTime y.endTime

/-- A booking's window is fully contained in the window of a listing-update
payload, in minutes. -/
def ContainedInWindow (booking : Booking) (d : ListingData) : Prop :=
  ∃ bs be ws we, timeToMinutes booking.startTime = some bs ∧
    timeToMinutes booking.endTime = some be ∧
    timeToMinutes d.startTime = some ws ∧ timeToMinutes d.endTime = some we ∧
    ws ≤ bs ∧ be ≤ we

/-- The global scheduling invariant: no two distinct confirmed bookings on
the same (listingId, date) have strictly overlapping windows. -/
def NoConfirmedOverlap (st : AppState) : Prop :=
  ∀ b1 ∈ st.bookings, ∀ b2 ∈ st.bookings, b1.id ≠ b2.id →
    b1.status = BookingStatus.confirmed → b2.status = BookingStatus.confirmed →
    b1.listingId = b2.listingId → b1.date = b2.date → ¬ OverlapsB b1 b2

/-- All booking ids are pairwise distinct (Firestore document ids are
unique). -/
def UniqueIds (st : AppState) : Prop :=
  st.bookings.Pairwise (fun x y => x.id ≠ y.id)

/-- States reachable from an initial state with no bookings by the core
operations.  requestBooking is given a fresh id, as Firestore does. -/
inductive Reachable : AppState → Prop where
  | init (ls : List Listing) : Reachable { listings := ls, bookings := [] }
  | request {st : AppState} {l : Listing} {s e : String} {i : Nat} {nb : Booking}
      {st' : AppState} (h : Reachable st)
      (heq : requestBooking st l s e i = some (nb, st'))
      (hfresh : ∀ b ∈ st.bookings, b.id ≠ i) : Reachable st'
  | approve {st : AppState} {b : Booking} (h : Reachable st)
      (hb : b ∈ st.bookings) : Reachable (approveBooking st b).2
  | deny {st : AppState} (b : Booking) (h : Reachable st) : Reachable (denyBooking st b)
  | cancelUser {st : AppState} (b : Booking) (h : Reachable st) :
      Reachable (cancelBookingByUser st b)
  | cancelOwner {st : AppState} (b : Booking) (h : Reachable st) :
      Reachable (cancelBookingByOwner st b)
  | delete {st : AppState} (i : Nat) (h : Reachable st) : Reachable (deleteBooking st i)
  | addL {st : AppState} (d : ListingData) (i : Nat) (h : Reachable st) :
      Reachable (addListing st d i).2
  | updateL {st : AppState} (lid : Nat) (d : ListingData) (h : Reachable st) :
      Reachable (updateListing st lid d)

/-! ## Validity of padded time strings -/

/-- A character list of the exact shape HH:MM with a two-digit hour at most
23 and a minute at most 59. -/
def validPadded : List Char → Bool
  | [a, b, c, d, e] =>
    isDigitChar a && isDigitChar b && (c == ':') && isDigitChar d && isDigitChar e
      && decide (10 * digitVal a + digitVal b ≤ 23)
      && decide (10 * digitVal d + digitVal e ≤ 59)
  | _ => false

/-- The minute value of a five-character HH:MM list (zero elsewhere). -/
def paddedVal : List Char → Nat
  | a :: b :: _ :: d :: e :: _ =>
    (10 * digitVal a + digitVal b) * 60 + (10 * digitVal d + digitVal e)
  | _ => 0

/-- A string is a valid zero-padded HH:MM time. -/
def isValidPaddedTime (s : String) : Bool := validPadded s.data

/-! ## Example data used by witnesses and counterexamples -/

/-- A listing used in the concrete approval scenario. -/
def exListing : Listing :=
  { id := 1, address := "123 Main St", city := "Metropolis", zipCode := "10001",
    date := "2024-09-20", startTime := "09:00", endTime := "17:00" }

/-- First pending request, 10:00 to 12:00. -/
def exB1 : Booking :=
  { id := 1, listingId := 1, date := "2024-09-20", startTime := "10:00",
    endTime := "12:00", status := BookingStatus.pending }

/-- Second pending request, 11:00 to 13:00, overlapping the first. -/
def exB2 : Booking :=
  { id := 2, listingId := 1, date := "2024-09-20", startTime := "11:00",
    endTime := "13:00", status := BookingStatus.pending }

/-- Initial state of the scenario: the listing, no bookings. -/
def exStA : AppState := { listings := [exListing], bookings := [] }

/-- After requesting exB1. -/
def exStB : AppState := { listings := [exListing], bookings := [exB1] }

/-- After requesting exB2 as well. -/
def exStC : AppState := { listings := [exListing], bookings := [exB2, exB1] }

/-- After approving exB1: exB1 is confirmed, exB2 still pending. -/
def exSt1 : AppState := (approveBooking exStC exB1).2

/-- A denied booking, used to exercise approveBooking from a non-pending
status. -/
def exDenied : Booking :=
  { id := 7, listingId := 3, date := "2024-09-22", startTime := "09:00",
    endTime := "10:00", status := BookingStatus.denied }

/-- A state holding only the denied booking. -/
def exStDenied : AppState := { listings := [], bookings := [exDenied] }

/-- A pending booking, used to exercise deleteBooking from a non-terminal
status. -/
def exPending : Booking :=
  { id := 5, listingId := 2, date := "2024-09-21", startTime := "09:00",
    endTime := "11:00", status := BookingStatus.pending }

/-- A state holding only the pending booking. -/
def exStPending : AppState := { listings := [], bookings := [exPending] }

/-- A listing whose window uses an unpadded one-digit hour. -/
def exShrinkListing : Listing :=
  { id := 1, address := "9 Elm St", city := "Metropolis", zipCode := "10001",
    date := "2024-09-20", startTime := "8:00", endTime := "17:00" }

/-- A pending booking from 9:00 to 9:30, fully inside 8:00 to 12:00. -/
def exShrinkBooking : Booking :=
  { id := 1, listingId := 1, date := "2024-09-20", startTime := "9:00",
    endTime := "9:30", status := BookingStatus.pending }

/-- State before the listing window is shrunk. -/
def exStShrink : AppState := { listings := [exShrinkListing], bookings := [exShrinkBooking] }

/-- The update payload shrinking the window to 8:00 to 12:00 on the same
date. -/
def exShrinkData : ListingData :=
  { address := "9 Elm St", city := "Metropolis", zipCode := "10001",
    date := "2024-09-20", startTime := "8:00", endTime := "12:00" }

/-- A padded booking from 13:00 to 15:00 on the padded listing. -/
def exPadBooking : Booking :=
  { id := 1, listingId := 1, date := "2024-09-20", startTime := "13:00",
    endTime := "15:00", status := BookingStatus.confirmed }

/-- A padded booking from 09:30 to 11:00 on the padded listing. -/
def exPadBooking2 : Booking :=
  { id := 2, listingId := 1, date := "2024-09-20", startTime := "09:30",
    endTime := "11:00", status := BookingStatus.pending }

/-- State with two padded bookings, before the padded shrink. -/
def exStPad : AppState := { listings := [exListing], bookings := [exPadBooking, exPadBooking2] }

/-- The padded shrink of the window from 09:00 to 12:00. -/
def exPadData : ListingData :=
  { address := "123 Main St", city := "Metropolis", zipCode := "10001",
    date := "2024-09-20", startTime := "09:00", endTime := "12:00" }

/-- A confirmed booking on the old date of a listing about to move. -/
def exMoveBooking : Booking :=
  { id := 9, listingId := 4, date := "2024-09-20", startTime := "10:00",
    endTime := "12:00", status := BookingStatus.confirmed }

/-- The listing about to move to a new date. -/
def exMoveListing : Listing :=
  { id := 4, address := "77 Oak Ave", city := "Gotham", zipCode := "07001",
    date := "2024-09-20", startTime := "09:00", endTime := "17:00" }

/-- State before the date move. -/
def exStMove : AppState := { listings := [exMoveListing], bookings := [exMoveBooking] }

/-- The update payload moving the listing to 2024-09-21, window unchanged. -/
def exMoveData : ListingData :=
  { address := "77 Oak Ave", city := "Gotham", zipCode := "07001",
    date := "2024-09-21", startTime := "09:00", endTime := "17:00" }

/-- An existing listing from 10:00 to 12:00, with padded times. -/
def exDupListing : Listing :=
  { id := 1, address := "5 Pine Rd", city := "Metropolis", zipCode := "10001",
    date := "2024-09-20", startTime := "10:00", endTime := "12:00" }

/-- State holding only that listing. -/
def exStDup : AppState := { listings := [exDupListing], bookings := [] }

/-- A new-listing payload for the same spot from 9:00 to 11:00, with an
unpadded one-digit hour; the window truly overlaps 10:00 to 12:00. -/
def exDupData : ListingData :=
  { address := "5 Pine Rd", city := "Metropolis", zipCode := "10001",
    date := "2024-09-20", startTime := "9:00", endTime := "11:00" }

/-- A padded new-listing payload for the same spot from 11:00 to 13:00,
strictly overlapping 10:00 to 12:00 on 11:00 to 12:00. -/
def exDupDataPad : ListingData :=
  { address := "5 Pine Rd", city := "Metropolis", zipCode := "10001",
    date := "2024-09-20", startTime := "11:00", endTime := "13:00" }

/-- A padded new-listing payload for the same spot from 12:00 to 14:00:
touching 10:00 to 12:00 only at the shared endpoint, so not overlapping. -/
def exDupDataFree : ListingData :=
  { address := "5 Pine Rd", city := "Metropolis", zipCode := "10001",
    date := "2024-09-20", startTime := "12:00", endTime := "14:00" }

end DriveBay

/-! # Theorems -/

namespace DriveBay

/-! ## Basic characterizations -/

theorem overlapsCheck_eq_true_iff (w x y z : Option Nat) :
    overlapsCheck w x y z = true ↔
      ∃ a b c d, w = some a ∧ x = some b ∧ y = some c ∧ z = some d ∧ a < d ∧ c < b := by
  cases w <;> cases x <;> cases y <;> cases z <;> simp [overlapsCheck, nanLt]

theorem approveBooking_eq (st : AppState) (b : Booking) :
    approveBooking st b =
      if approveConflictOn (getExistingBookingsForListing st b.listingId b.date) b
      then (ApproveResult.conflict, st)
      else (ApproveResult.approved,
        { st with bookings := setStatus st.bookings b.id BookingStatus.confirmed }) := rfl

theorem approveBooking_fst_eq_conflict_iff (st : AppState) (b : Booking) :
    (approveBooking st b).1 = ApproveResult.conflict ↔
      approveConflictOn (getExistingBookingsForListing st b.listingId b.date) b = true := by
  rw [approveBooking_eq]
  cases hc : approveConflictOn (getExistingBookingsForListing st b.listingId b.date) b <;>
    simp [hc]

theorem approveBooking_snd_conflict {st : AppState} {b : Booking}
    (hc : approveConflictOn (getExistingBookingsForListing st b.listingId b.date) b = true) :
    (approveBooking st b).2 = st := by
  rw [approveBooking_eq, if_pos hc]

theorem approveBooking_snd_ok {st : AppState} {b : Booking}
    (hc : approveConflictOn (getExistingBookingsForListing st b.listingId b.date) b = false) :
    (approveBooking st b).2 =
      { st with bookings := setStatus st.bookings b.id BookingStatus.confirmed } := by
  rw [approveBooking_eq, if_neg]
  simp [hc]

theorem mem_getExisting {st : AppState} {lid : Nat} {date : String} {x : Booking} :
    x ∈ getExistingBookingsForListing st lid date ↔
      x ∈ st.bookings ∧ x.listingId = lid ∧ x.date = date := by
  simp [getExistingBookingsForListing, List.mem_filter]

theorem approveConflictOn_iff (bs : List Booking) (b : Booking) :
    approveConflictOn bs b = true ↔
      ∃ cb ∈ bs, cb.status = BookingStatus.confirmed ∧ OverlapsB b cb := by
  unfold approveConflictOn
  simp only [List.any_eq_true, List.mem_filter, decide_eq_true_eq]
  constructor
  · rintro ⟨cb, ⟨hm, hs⟩, hov⟩
    exact ⟨cb, hm, hs, (overlapsCheck_eq_true_iff _ _ _ _).mp hov⟩
  · rintro ⟨cb, hm, hs, hov⟩
    exact ⟨cb, ⟨hm, hs⟩, (overlapsCheck_eq_true_iff _ _ _ _).mpr hov⟩

theorem approveBooking_conflict_exists_iff (st : AppState) (b : Booking) :
    (approveBooking st b).1 = ApproveResult.conflict ↔
      ∃ cb ∈ st.bookings, cb.status = BookingStatus.confirmed ∧
        cb.listingId = b.listingId ∧ cb.date = b.date ∧ OverlapsB b cb := by
  rw [approveBooking_fst_eq_conflict_iff, approveConflictOn_iff]
  constructor
  · rintro ⟨cb, hm, hs, hov⟩
    rw [mem_getExisting] at hm
    exact ⟨cb, hm.1, hs, hm.2.1, hm.2.2, hov⟩
  · rintro ⟨cb, hm, hs, hl, hd, hov⟩
    exact ⟨cb, mem_getExisting.mpr ⟨hm, hl, hd⟩, hs, hov⟩

theorem OverlapsB_symm {x y : Booking} (h : OverlapsB x y) : OverlapsB y x := by
  obtain ⟨a, b, c, d, h1, h2, h3, h4, h5, h6⟩ := h
  exact ⟨c, d, a, b, h3, h4, h1, h2, h6, h5⟩

/-! ## Padded time strings: lexicographic order agrees with minute order -/

theorem validPadded_shape : ∀ {l : List Char}, validPadded l = true →
    ∃ a b d e, l = [a, b, ':', d, e] ∧
      48 ≤ a.toNat ∧ a.toNat ≤ 57 ∧ 48 ≤ b.toNat ∧ b.toNat ≤ 57 ∧
      48 ≤ d.toNat ∧ d.toNat ≤ 57 ∧ 48 ≤ e.toNat ∧ e.toNat ≤ 57 ∧
      10 * digitVal a + digitVal b ≤ 23 ∧ 10 * digitVal d + digitVal e ≤ 59
  | [a, b, c, d, e], h => by
    simp only [validPadded, Bool.and_eq_true, beq_iff_eq, decide_eq_true_eq, isDigitChar] at h
    obtain ⟨⟨⟨⟨⟨⟨ha, hb⟩, hc⟩, hd⟩, he⟩, h23⟩, h59⟩ := h
    subst hc
    exact ⟨a, b, d, e, rfl, ha.1, ha.2, hb.1, hb.2, hd.1, hd.2, he.1, he.2, h23, h59⟩
  | [], h => by simp [validPadded] at h
  | [_], h => by simp [validPadded] at h
  | [_, _], h => by simp [validPadded] at h
  | [_, _, _], h => by simp [validPadded] at h
  | [_, _, _, _], h => by simp [validPadded] at h
  | _ :: _ :: _ :: _ :: _ :: _ :: _, h => by simp [validPadded] at h

theorem timeToMinutesList_of_validPadded {l : List Char} (h : validPadded l = true) :
    timeToMinutesList l = some (paddedVal l) := by
  obtain ⟨a, b, d, e, rfl, ha1, ha2, hb1, hb2, hd1, hd2, he1, he2, h23, h59⟩ :=
    validPadded_shape h
  have hda : isDigitChar a = true := by simp [isDigitChar]; omega
  have hdb : isDigitChar b = true := by simp [isDigitChar]; omega
  have hdd : isDigitChar d = true := by simp [isDigitChar]; omega
  have hde : isDigitChar e = true := by simp [isDigitChar]; omega
  simp [timeToMinutesList, paddedVal, hda, hdb, hdd, hde, h23, h59]

set_option maxHeartbeats 1000000 in
theorem strLtAux_iff_paddedVal {l1 l2 : List Char} (h1 : validPadded l1 = true)
    (h2 : validPadded l2 = true) :
    strLtAux l1 l2 = true ↔ paddedVal l1 < paddedVal l2 := by
  obtain ⟨a1, b1, d1, e1, rfl, ha1, ha2, hb1, hb2, hd1, hd2, he1, he2, h23, h59⟩ :=
    validPadded_shape h1
  obtain ⟨a2, b2, d2, e2, rfl, ka1, ka2, kb1, kb2, kd1, kd2, ke1, ke2, k23, k59⟩ :=
    validPadded_shape h2
  clear h1 h2
  have hcol : (':' : Char).toNat = 58 := by decide
  simp only [digitVal] at h23 h59 k23 k59
  simp only [strLtAux, paddedVal, digitVal, hcol]
  split_ifs <;> simp <;> omega

theorem timeToMinutes_of_validPadded {s : String} (h : isValidPaddedTime s = true) :
    timeToMinutes s = some (paddedVal s.data) :=
  timeToMinutesList_of_validPadded h

theorem strLt_iff_lt_minutes {s t : String} (hs : isValidPaddedTime s = true)
    (ht : isValidPaddedTime t = true) {a b : Nat}
    (ea : timeToMinutes s = some a) (eb : timeToMinutes t = some b) :
    strLt s t = true ↔ a < b := by
  have h1 := timeToMinutes_of_validPadded hs
  have h2 := timeToMinutes_of_validPadded ht
  rw [ea] at h1
  rw [eb] at h2
  injection h1 with h1
  injection h2 with h2
  rw [h1, h2]
  exact strLtAux_iff_paddedVal hs ht

/-! ## setStatus, deletion and uniqueness -/

theorem setStatus_apply (bs : List Booking) (i : Nat) (s : BookingStatus) :
    setStatus bs i s =
      bs.map (fun b => if decide (b.id = i) then { b with status := s } else b) := rfl

theorem setStatus_id_eq (i : Nat) (s : BookingStatus) (b : Booking) :
    (if decide (b.id = i) then { b with status := s } else b).id = b.id := by
  split <;> rfl

theorem eq_of_mem_of_pairwise_ne {l : List Booking}
    (hu : l.Pairwise (fun x y => x.id ≠ y.id)) {a b : Booking}
    (ha : a ∈ l) (hb : b ∈ l) (hid : a.id = b.id) : a = b := by
  induction l with
  | nil => cases ha
  | cons x t ih =>
    rw [List.pairwise_cons] at hu
    rcases List.mem_cons.mp ha with rfl | ha' <;> rcases List.mem_cons.mp hb with rfl | hb'
    · rfl
    · exact absurd hid (hu.1 b hb')
    · exact absurd hid.symm (hu.1 a ha')
    · exact ih hu.2 ha' hb'

theorem UniqueIds_of_map {st st2 : AppState} (f : Booking → Booking)
    (hb2 : st2.bookings = st.bookings.map f)
    (hf : ∀ y, (f y).id = y.id) (hu : UniqueIds st) : UniqueIds st2 := by
  unfold UniqueIds at *
  rw [hb2]
  refine hu.map f ?_
  intro a b hab
  rw [hf, hf]
  exact hab

theorem NoConfirmedOverlap_of_map {st st2 : AppState} (f : Booking → Booking)
    (hb2 : st2.bookings = st.bookings.map f)
    (hno : NoConfirmedOverlap st)
    (hf : ∀ y, f y = y ∨ ∃ s, s ≠ BookingStatus.confirmed ∧ f y = { y with status := s }) :
    NoConfirmedOverlap st2 := by
  intro b1 hb1 b2 hb2m hne h1 h2 hlid hdate
  rw [hb2] at hb1 hb2m
  obtain ⟨y1, hy1, rfl⟩ := List.mem_map.mp hb1
  obtain ⟨y2, hy2, rfl⟩ := List.mem_map.mp hb2m
  have e1 : f y1 = y1 := by
    rcases hf y1 with h | ⟨s, hs, he⟩
    · exact h
    · rw [he] at h1
      exact absurd h1 hs
  have e2 : f y2 = y2 := by
    rcases hf y2 with h | ⟨s, hs, he⟩
    · exact h
    · rw [he] at h2
      exact absurd h2 hs
  rw [e1] at h1 hne hlid hdate ⊢
  rw [e2] at h2 hne hlid hdate ⊢
  exact hno y1 hy1 y2 hy2 hne h1 h2 hlid hdate

theorem NoConfirmedOverlap_approve {st st2 : AppState} {b : Booking}
    (hb : b ∈ st.bookings) (hu : UniqueIds st) (hno : NoConfirmedOverlap st)
    (hnc : approveConflictOn (getExistingBookingsForListing st b.listingId b.date) b = false)
    (hb2 : st2.bookings = setStatus st.bookings b.id BookingStatus.confirmed) :
    NoConfirmedOverlap st2 := by
  have hkey : ∀ cb ∈ st.bookings, cb.status = BookingStatus.confirmed →
      cb.listingId = b.listingId → cb.date = b.date → ¬ OverlapsB b cb := by
    intro cb hm hs hl hd hov
    have htrue : approveConflictOn (getExistingBookingsForListing st b.listingId b.date) b
        = true :=
      (approveConflictOn_iff _ _).mpr ⟨cb, mem_getExisting.mpr ⟨hm, hl, hd⟩, hs, hov⟩
    rw [htrue] at hnc
    cases hnc
  intro b1 hb1 b2 hb2m hne h1 h2 hlid hdate hov
  rw [hb2, setStatus_apply] at hb1 hb2m
  obtain ⟨y1, hy1, rfl⟩ := List.mem_map.mp hb1
  obtain ⟨y2, hy2, rfl⟩ := List.mem_map.mp hb2m
  by_cases k1 : y1.id = b.id <;> by_cases k2 : y2.id = b.id
  · exact hne (by rw [setStatus_id_eq, setStatus_id_eq, k1, k2])
  · have hy1b : y1 = b := eq_of_mem_of_pairwise_ne hu hy1 hb k1
    subst hy1b
    have e1 : (if decide (y1.id = y1.id) then { y1 with status := BookingStatus.confirmed }
        else y1) = { y1 with status := BookingStatus.confirmed } := by simp
    have e2 : (if decide (y2.id = y1.id) then { y2 with status := BookingStatus.confirmed }
        else y2) = y2 := by simp [k2]
    rw [e1] at hlid hdate hov
    rw [e2] at h2 hlid hdate hov
    exact hkey y2 hy2 h2 hlid.symm hdate.symm hov
  · have hy2b : y2 = b := eq_of_mem_of_pairwise_ne hu hy2 hb k2
    subst hy2b
    have e2 : (if decide (y2.id = y2.id) then { y2 with status := BookingStatus.confirmed }
        else y2) = { y2 with status := BookingStatus.confirmed } := by simp
    have e1 : (if decide (y1.id = y2.id) then { y1 with status := BookingStatus.confirmed }
        else y1) = y1 := by simp [k1]
    rw [e2] at hlid hdate hov
    rw [e1] at h1 hlid hdate hov
    exact hkey y1 hy1 h1 hlid hdate (OverlapsB_symm hov)
  · have e1 : (if decide (y1.id = b.id) then { y1 with status := BookingStatus.confirmed }
        else y1) = y1 := by simp [k1]
    have e2 : (if decide (y2.id = b.id) then { y2 with status := BookingStatus.confirmed }
        else y2) = y2 := by simp [k2]
    rw [e1] at h1 hne hlid hdate hov
    rw [e2] at h2 hne hlid hdate hov
    exact hno y1 hy1 y2 hy2 hne h1 h2 hlid hdate hov

/-! ## The updateListing cancellation loop as a single map -/

theorem foldl_cascadeStep_listings (d : ListingData) :
    ∀ (L : List Booking) (st : AppState), (L.foldl (cascadeStep d) st).listings = st.listings
  | [], _ => rfl
  | x :: L, st => by
    rw [List.foldl_cons, foldl_cascadeStep_listings d L]
    unfold cascadeStep cancelBookingByOwner
    split <;> rfl

theorem foldl_cascadeStep_bookings (d : ListingData) :
    ∀ (L : List Booking) (st : AppState),
      (L.foldl (cascadeStep d) st).bookings =
        st.bookings.map (fun y =>
          if L.any (fun x => cancelCond d x && decide (x.id = y.id))
          then { y with status := BookingStatus.canceled_by_owner } else y)
  | [], st => by simp
  | x :: L, st => by
    rw [List.foldl_cons, foldl_cascadeStep_bookings d L]
    by_cases hc : cancelCond d x = true
    · have hstep : cascadeStep d st x = cancelBookingByOwner st x := by
        rw [cascadeStep, if_pos hc]
      rw [hstep]
      show (setStatus st.bookings x.id BookingStatus.canceled_by_owner).map _ = _
      rw [setStatus_apply, List.map_map]
      congr 1
      funext y
      by_cases hy : y.id = x.id
      · simp [Function.comp, hy, hc]
      · have hne2 : ¬(cancelCond d x = true ∧ x.id = y.id) := fun hq => hy hq.2.symm
        simp [Function.comp, hy, hne2]
    · have hstep : cascadeStep d st x = st := by
        rw [cascadeStep, if_neg]
        simp [hc]
      rw [hstep]
      congr 1
      funext y
      simp [List.any_cons, hc]

theorem updateListing_bookings (st : AppState) (lid : Nat) (d : ListingData) :
    (updateListing st lid d).bookings =
      st.bookings.map (fun y =>
        if (getExistingBookingsForListing st lid d.date).any
            (fun x => cancelCond d x && decide (x.id = y.id))
        then { y with status := BookingStatus.canceled_by_owner } else y) := by
  show ((getExistingBookingsForListing st lid d.date).foldl (cascadeStep d) st).bookings = _
  rw [foldl_cascadeStep_bookings]

/-! ## Inversion and bookkeeping lemmas for the other operations -/

theorem requestBooking_inv {st : AppState} {l : Listing} {s e : String} {i : Nat}
    {nb : Booking} {st' : AppState} (h : requestBooking st l s e i = some (nb, st')) :
    nb.status = BookingStatus.pending ∧ nb.id = i ∧
      nb.startTime = s ∧ nb.endTime = e ∧ nb.listingId = l.id ∧ nb.date = l.date ∧
      st'.bookings = nb :: st.bookings ∧ st'.listings = st.listings := by
  unfold requestBooking at h
  split at h
  · cases h
  · rw [Option.some.injEq, Prod.mk.injEq] at h
    obtain ⟨h1, h2⟩ := h
    subst h1
    subst h2
    exact ⟨rfl, rfl, rfl, rfl, rfl, rfl, rfl, rfl⟩

theorem addListing_snd_bookings (st : AppState) (d : ListingData) (i : Nat) :
    (addListing st d i).2.bookings = st.bookings := by
  cases hdup : (checkForExistingListing st d).any
      (fun existing => strLt d.startTime existing.endTime && strLt existing.startTime d.endTime) <;>
    simp [addListing, hdup]

theorem deleteBooking_bookings (st : AppState) (i : Nat) :
    (deleteBooking st i).bookings = st.bookings.filter (fun b => !decide (b.id = i)) := rfl

/-! ## The reachability invariant -/

theorem reachable_inv {st : AppState} (h : Reachable st) :
    UniqueIds st ∧ NoConfirmedOverlap st := by
  induction h with
  | init ls =>
    constructor
    · exact List.Pairwise.nil
    · intro b1 hb1
      cases hb1
  | request h heq hfresh ih =>
    obtain ⟨hu, hno⟩ := ih
    obtain ⟨hst, hid, _, _, _, _, hbk, _⟩ := requestBooking_inv heq
    constructor
    · unfold UniqueIds
      rw [hbk]
      exact List.Pairwise.cons (fun b hb => by rw [hid]; exact fun hbad => hfresh b hb hbad.symm) hu
    · intro b1 hb1 b2 hb2 hne h1 h2 hlid hdate
      rw [hbk] at hb1 hb2
      rcases List.mem_cons.mp hb1 with rfl | hb1'
      · rw [hst] at h1
        cases h1
      · rcases List.mem_cons.mp hb2 with rfl | hb2'
        · rw [hst] at h2
          cases h2
        · exact hno b1 hb1' b2 hb2' hne h1 h2 hlid hdate
  | approve h hb ih =>
    obtain ⟨hu, hno⟩ := ih
    rename_i st0 b
    cases hc : approveConflictOn (getExistingBookingsForListing st0 b.listingId b.date) b
    · rw [approveBooking_snd_ok hc]
      constructor
      · exact UniqueIds_of_map _ rfl (setStatus_id_eq b.id BookingStatus.confirmed) hu
      · exact NoConfirmedOverlap_approve hb hu hno hc rfl
    · rw [approveBooking_snd_conflict hc]
      exact ⟨hu, hno⟩
  | deny b h ih =>
    obtain ⟨hu, hno⟩ := ih
    constructor
    · exact UniqueIds_of_map _ rfl (setStatus_id_eq b.id BookingStatus.denied) hu
    · refine NoConfirmedOverlap_of_map _ rfl hno (fun y => ?_)
      by_cases hy : y.id = b.id
      · exact Or.inr ⟨BookingStatus.denied, by decide, by simp [hy]⟩
      · exact Or.inl (by simp [hy])
  | cancelUser b h ih =>
    obtain ⟨hu, hno⟩ := ih
    constructor
    · exact UniqueIds_of_map _ rfl (setStatus_id_eq b.id BookingStatus.canceled_by_user) hu
    · refine NoConfirmedOverlap_of_map _ rfl hno (fun y => ?_)
      by_cases hy : y.id = b.id
      · exact Or.inr ⟨BookingStatus.canceled_by_user, by decide, by simp [hy]⟩
      · exact Or.inl (by simp [hy])
  | cancelOwner b h ih =>
    obtain ⟨hu, hno⟩ := ih
    constructor
    · exact UniqueIds_of_map _ rfl (setStatus_id_eq b.id BookingStatus.canceled_by_owner) hu
    · refine NoConfirmedOverlap_of_map _ rfl hno (fun y => ?_)
      by_cases hy : y.id = b.id
      · exact Or.inr ⟨BookingStatus.canceled_by_owner, by decide, by simp [hy]⟩
      · exact Or.inl (by simp [hy])
  | delete i h ih =>
    obtain ⟨hu, hno⟩ := ih
    constructor
    · exact hu.filter _
    · intro b1 hb1 b2 hb2 hne h1 h2 hlid hdate
      rw [deleteBooking_bookings] at hb1 hb2
      exact hno b1 (List.mem_of_mem_filter hb1) b2 (List.mem_of_mem_filter hb2)
        hne h1 h2 hlid hdate
  | addL d i h ih =>
    obtain ⟨hu, hno⟩ := ih
    constructor
    · unfold UniqueIds
      rw [addListing_snd_bookings]
      exact hu
    · intro b1 hb1 b2 hb2
      rw [addListing_snd_bookings] at hb1 hb2
      exact hno b1 hb1 b2 hb2
  | updateL lid d h ih =>
    rename_i st0
    obtain ⟨hu, hno⟩ := ih
    constructor
    · exact UniqueIds_of_map _ (updateListing_bookings st0 lid d) (fun y => by split <;> rfl) hu
    · refine NoConfirmedOverlap_of_map _ (updateListing_bookings st0 lid d) hno (fun y => ?_)
      by_cases hy : (getExistingBookingsForListing st0 lid d.date).any
          (fun x => cancelCond d x && decide (x.id = y.id)) = true
      · exact Or.inr ⟨BookingStatus.canceled_by_owner, by decide, by simp [hy]⟩
      · exact Or.inl (by simp [hy])

/-! ## Shared consequences of an approval outcome -/

theorem approveBooking_unchanged_of_conflict {st : AppState} {b : Booking}
    (h : (approveBooking st b).1 = ApproveResult.conflict) : (approveBooking st b).2 = st :=
  approveBooking_snd_conflict ((approveBooking_fst_eq_conflict_iff st b).mp h)

theorem approveConflictOn_false_of_approved {st : AppState} {b : Booking}
    (h : (approveBooking st b).1 = ApproveResult.approved) :
    approveConflictOn (getExistingBookingsForListing st b.listingId b.date) b = false := by
  cases hc : approveConflictOn (getExistingBookingsForListing st b.listingId b.date) b
  · rfl
  · exfalso
    have hcf := (approveBooking_fst_eq_conflict_iff st b).mpr hc
    rw [h] at hcf
    cases hcf

theorem approveBooking_confirms_of_approved {st : AppState} {b : Booking}
    (hb : b ∈ st.bookings) (h : (approveBooking st b).1 = ApproveResult.approved) :
    { b with status := BookingStatus.confirmed } ∈ (approveBooking st b).2.bookings ∧
      ∀ x ∈ (approveBooking st b).2.bookings, x.id = b.id →
        x.status = BookingStatus.confirmed := by
  rw [approveBooking_snd_ok (approveConflictOn_false_of_approved h)]
  constructor
  · show _ ∈ setStatus st.bookings b.id BookingStatus.confirmed
    rw [setStatus_apply]
    refine List.mem_map.mpr ⟨b, hb, ?_⟩
    simp
  · intro x hx hid
    have hx2 : x ∈ setStatus st.bookings b.id BookingStatus.confirmed := hx
    rw [setStatus_apply] at hx2
    obtain ⟨y, hy, rfl⟩ := List.mem_map.mp hx2
    by_cases hyid : y.id = b.id
    · simp [hyid]
    · rw [if_neg (by simp [hyid])] at hid
      exact absurd hid hyid

/-! ## Claim theorems -/

/-- Claim C1: for an approval attempt on a pending booking b that is in the
store, the attempt reports a conflict (and leaves the whole state, hence b's
pending status, unchanged) exactly when some other confirmed booking on the
same (listingId, date) strictly overlaps b's requested window; otherwise it
reports approval and b's status becomes confirmed. -/
theorem approveBooking_pending_conflict_gate (st : AppState) (b : Booking)
    (hb : b ∈ st.bookings) (hp : b.status = BookingStatus.pending) :
    ((approveBooking st b).1 = ApproveResult.conflict ↔
      ∃ b2 ∈ st.bookings, b2 ≠ b ∧ b2.status = BookingStatus.confirmed ∧
        b2.listingId = b.listingId ∧ b2.date = b.date ∧ OverlapsB b b2)
    ∧ ((approveBooking st b).1 = ApproveResult.conflict → (approveBooking st b).2 = st)
    ∧ ((approveBooking st b).1 = ApproveResult.approved →
        { b with status := BookingStatus.confirmed } ∈ (approveBooking st b).2.bookings ∧
        ∀ x ∈ (approveBooking st b).2.bookings, x.id = b.id →
          x.status = BookingStatus.confirmed) := by
  refine ⟨?_, fun h => approveBooking_unchanged_of_conflict h,
    fun h => approveBooking_confirms_of_approved hb h⟩
  rw [approveBooking_conflict_exists_iff]
  constructor
  · rintro ⟨cb, hm, hs, hl, hd, hov⟩
    refine ⟨cb, hm, ?_, hs, hl, hd, hov⟩
    intro hcb
    rw [hcb, hp] at hs
    cases hs
  · rintro ⟨cb, hm, _, hs, hl, hd, hov⟩
    exact ⟨cb, hm, hs, hl, hd, hov⟩

/-- Witness for C1, realizing the two-mutually-overlapping-requests story:
after approving the 10:00-12:00 request, approving the overlapping
11:00-13:00 request is refused as a conflict and the state is unchanged. -/
theorem approveBooking_pending_conflict_gate_witness :
    exB2 ∈ exSt1.bookings ∧ exB2.status = BookingStatus.pending ∧
      (approveBooking exSt1 exB2).1 = ApproveResult.conflict ∧
      (approveBooking exSt1 exB2).2 = exSt1 := by
  have hb : exB2 ∈ exSt1.bookings := by decide
  have hp : exB2.status = BookingStatus.pending := by decide
  have h := approveBooking_pending_conflict_gate exSt1 exB2 hb hp
  have hcf : (approveBooking exSt1 exB2).1 = ApproveResult.conflict := by
    refine h.1.mpr ⟨{ exB1 with status := BookingStatus.confirmed },
      by decide, by decide, by decide, by decide, by decide, ?_⟩
    exact ⟨660, 780, 600, 720, by decide, by decide, by decide, by decide,
      by decide, by decide⟩
  exact ⟨hb, hp, hcf, h.2.1 hcf⟩

/-- Claim C2: in every state reachable from an initial state with no
bookings by the core operations, no two distinct confirmed bookings on the
same (listingId, date) strictly overlap.  approveBooking is the only
transition in the Reachable relation that introduces status confirmed. -/
theorem reachable_no_confirmed_overlap (st : AppState) (h : Reachable st) :
    NoConfirmedOverlap st :=
  (reachable_inv h).2

/-- Witness for C2 at a concrete reachable state: listing, two requests,
one approval. -/
theorem reachable_no_confirmed_overlap_witness : NoConfirmedOverlap exSt1 := by
  have r1 : Reachable exStA := Reachable.init [exListing]
  have heq1 : requestBooking exStA exListing "10:00" "12:00" 1 = some (exB1, exStB) := by
    decide
  have r2 : Reachable exStB := Reachable.request r1 heq1 (by decide)
  have heq2 : requestBooking exStB exListing "11:00" "13:00" 2 = some (exB2, exStC) := by
    decide
  have r3 : Reachable exStC := Reachable.request r2 heq2 (by decide)
  have r4 : Reachable exSt1 := Reachable.approve r3 (show exB1 ∈ exStC.bookings by decide)
  exact reachable_no_confirmed_overlap exSt1 r4

/-- Counterexample to claim C5 as stated: deleteBooking on a pending booking
does not fail and does not leave the record in place; it removes it. -/
theorem deleteBooking_pending_removes :
    exPending.status = BookingStatus.pending ∧
      (deleteBooking exStPending exPending.id).bookings = [] := by decide

/-- Claim C5 (amended): deleteBooking itself performs no status check: it
removes exactly the bookings with the given id, whatever their status
(including pending and confirmed).  The status restriction of the claim
lives in the UI guard canDelete, which holds exactly for denied,
canceled_by_user and canceled_by_owner. -/
theorem deleteBooking_spec :
    (∀ st : AppState, ∀ i : Nat, ∀ x ∈ st.bookings, x.id ≠ i →
        x ∈ (deleteBooking st i).bookings)
    ∧ (∀ st : AppState, ∀ i : Nat, ∀ x ∈ (deleteBooking st i).bookings,
        x.id ≠ i ∧ x ∈ st.bookings)
    ∧ (∀ st : AppState, ∀ b ∈ st.bookings, b ∉ (deleteBooking st b.id).bookings)
    ∧ (∀ s : BookingStatus, canDelete s = true ↔
        (s = BookingStatus.denied ∨ s = BookingStatus.canceled_by_user ∨
          s = BookingStatus.canceled_by_owner)) := by
  refine ⟨?_, ?_, ?_, ?_⟩
  · intro st i x hx hne
    rw [deleteBooking_bookings]
    exact List.mem_filter.mpr ⟨hx, by simp [hne]⟩
  · intro st i x hx
    rw [deleteBooking_bookings] at hx
    obtain ⟨hm, hp⟩ := List.mem_filter.mp hx
    refine ⟨?_, hm⟩
    simpa using hp
  · intro st b _ hmem
    rw [deleteBooking_bookings] at hmem
    obtain ⟨_, hp⟩ := List.mem_filter.mp hmem
    simp at hp
  · intro s
    cases s <;> decide

/-- Witness for C5 (amended): the pending booking is removed by a direct
deleteBooking call even though the UI would not offer it, and canDelete
holds for denied. -/
theorem deleteBooking_spec_witness :
    exPending ∈ exStPending.bookings ∧
      exPending ∉ (deleteBooking exStPending exPending.id).bookings ∧
      canDelete BookingStatus.denied = true := by
  refine ⟨by decide, deleteBooking_spec.2.2.1 exStPending exPending (by decide), ?_⟩
  exact (deleteBooking_spec.2.2.2 BookingStatus.denied).mpr (Or.inl rfl)

/-- Counterexample to claim C6 as stated: approving a denied booking is not
refused as an illegal transition; the approval goes through and the status
becomes confirmed. -/
theorem approveBooking_denied_not_refused :
    exDenied.status ≠ BookingStatus.pending ∧
      (approveBooking exStDenied exDenied).1 = ApproveResult.approved ∧
      (approveBooking exStDenied exDenied).2.bookings =
        [{ exDenied with status := BookingStatus.confirmed }] := by decide

/-- Claim C6 (amended): approveBooking has no status guard at all: for a
booking in the store with any non-pending status, the outcome is decided
solely by the confirmed-overlap scan — conflict exactly when some confirmed
booking on the same (listingId, date) overlaps (leaving the state
unchanged), and otherwise the status is set to confirmed.  In particular a
stored confirmed booking whose own window strictly overlaps itself is
refused as a conflict, while denied or canceled bookings can be approved. -/
theorem approveBooking_no_status_guard (st : AppState) (b : Booking)
    (hb : b ∈ st.bookings) (_hnp : b.status ≠ BookingStatus.pending) :
    ((approveBooking st b).1 = ApproveResult.conflict ↔
      ∃ cb ∈ st.bookings, cb.status = BookingStatus.confirmed ∧
        cb.listingId = b.listingId ∧ cb.date = b.date ∧ OverlapsB b cb)
    ∧ ((approveBooking st b).1 = ApproveResult.conflict → (approveBooking st b).2 = st)
    ∧ ((approveBooking st b).1 = ApproveResult.approved →
        ∀ x ∈ (approveBooking st b).2.bookings, x.id = b.id →
          x.status = BookingStatus.confirmed)
    ∧ (b.status = BookingStatus.confirmed → OverlapsB b b →
        (approveBooking st b).1 = ApproveResult.conflict) := by
  refine ⟨approveBooking_conflict_exists_iff st b,
    fun h => approveBooking_unchanged_of_conflict h,
    fun h => (approveBooking_confirms_of_approved hb h).2, ?_⟩
  intro hconf hov
  exact (approveBooking_conflict_exists_iff st b).mpr ⟨b, hb, hconf, rfl, rfl, hov⟩

/-- Witness for C6 (amended): the denied booking is in the store, is not
pending, its approval attempt reports approved, and every record with its
id ends confirmed. -/
theorem approveBooking_no_status_guard_witness :
    (approveBooking exStDenied exDenied).1 = ApproveResult.approved ∧
      ∀ x ∈ (approveBooking exStDenied exDenied).2.bookings, x.id = exDenied.id →
        x.status = BookingStatus.confirmed := by
  have h := approveBooking_no_status_guard exStDenied exDenied (by decide) (by decide)
  have hap : (approveBooking exStDenied exDenied).1 = ApproveResult.approved := by decide
  exact ⟨hap, h.2.2.1 hap⟩

/-- Claim C8: the overlap check used at approval (overlapsCheck, the body of
the confirmed-bookings scan in approveBooking) is the strict interval test
aStart < bEnd and bStart < aEnd on valid minutes, touching intervals do not
overlap, and any invalid (none) input yields false. -/
theorem overlapsCheck_spec :
    (∀ a b c d : Nat,
        overlapsCheck (some a) (some b) (some c) (some d) = true ↔ (a < d ∧ c < b))
    ∧ (∀ x y z : Option Nat, overlapsCheck none x y z = false)
    ∧ (∀ w y z : Option Nat, overlapsCheck w none y z = false)
    ∧ (∀ w x z : Option Nat, overlapsCheck w x none z = false)
    ∧ (∀ w x y : Option Nat, overlapsCheck w x y none = false)
    ∧ overlapsCheck (timeToMinutes "09:00") (timeToMinutes "12:00")
        (timeToMinutes "12:00") (timeToMinutes "15:00") = false := by
  refine ⟨?_, ?_, ?_, ?_, ?_, by decide⟩
  · intro a b c d
    simp [overlapsCheck, nanLt]
  · intro x y z
    cases x <;> cases y <;> cases z <;> simp [overlapsCheck, nanLt]
  · intro w y z
    cases w <;> cases y <;> cases z <;> simp [overlapsCheck, nanLt]
  · intro w x z
    cases w <;> cases x <;> cases z <;> simp [overlapsCheck, nanLt]
  · intro w x y
    cases w <;> cases x <;> cases y <;> simp [overlapsCheck, nanLt]

/-- Claim C10: a failed store query during the approval conflict scan is
swallowed (the catch returns the empty list), so the scan sees no confirmed
bookings, the approval reports approved, and the booking is confirmed; no
error reaches the caller. -/
theorem approveBooking_query_failure_swallowed (st : AppState) (b : Booking) (msg : String) :
    queryRecover (Except.error msg) = [] ∧
      (approveBookingWithQuery st b (Except.error msg)).1 = ApproveResult.approved ∧
      (approveBookingWithQuery st b (Except.error msg)).2.bookings =
        setStatus st.bookings b.id BookingStatus.confirmed := by
  exact ⟨rfl, rfl, rfl⟩

/-- Claim C4, evaluated at the failing input: updateListing queries bookings
by the NEW date.  A confirmed booking on the previous date is therefore
never fetched when the date changes, and survives the update untouched
instead of being force-canceled. -/
theorem updateListing_strands_old_date_booking :
    exMoveBooking.date = "2024-09-20" ∧ exMoveData.date = "2024-09-21" ∧
      exMoveBooking.status = BookingStatus.confirmed ∧
      getExistingBookingsForListing exStMove 4 exMoveData.date = [] ∧
      exMoveBooking ∈ (updateListing exStMove 4 exMoveData).bookings := by decide

/-! ## The time parsers (claim C7) -/

theorem digitChar_toNat {d : Nat} (h : d ≤ 9) : (digitChar d).toNat = 48 + d := by
  unfold digitChar
  interval_cases d <;> decide

theorem digitChar_digitVal {c : Char} (h1 : 48 ≤ c.toNat) (h2 : c.toNat ≤ 57) :
    digitChar (digitVal c) = c := by
  unfold digitChar digitVal
  have he : 48 + (c.toNat - 48) = c.toNat := by omega
  rw [he, Char.ofNat_toNat]

theorem isDigitChar_digitChar {d : Nat} (h : d ≤ 9) : isDigitChar (digitChar d) = true := by
  simp [isDigitChar, digitChar_toNat h]
  omega

theorem digitVal_digitChar {d : Nat} (h : d ≤ 9) : digitVal (digitChar d) = d := by
  simp [digitVal, digitChar_toNat h]

theorem timeToMinutesList_some_inv :
    ∀ {l : List Char} {v : Nat}, timeToMinutesList l = some v →
      ∃ hh mm, hh ≤ 23 ∧ mm ≤ 59 ∧ v = hh * 60 + mm ∧
        (l = [digitChar (hh / 10), digitChar (hh % 10), ':',
              digitChar (mm / 10), digitChar (mm % 10)]
          ∨ (hh ≤ 9 ∧ l = [digitChar hh, ':', digitChar (mm / 10), digitChar (mm % 10)]))
  | [h1, c, m1, m2], v, h => by
    simp only [timeToMinutesList] at h
    split at h
    case isFalse => cases h
    case isTrue hcnd =>
      split at h
      case isFalse => cases h
      case isTrue hrng =>
        rw [Option.some.injEq] at h
        simp only [Bool.and_eq_true, beq_iff_eq, isDigitChar, decide_eq_true_eq] at hcnd hrng
        obtain ⟨⟨⟨hd1, hc⟩, hm1⟩, hm2⟩ := hcnd
        subst hc
        refine ⟨digitVal h1, 10 * digitVal m1 + digitVal m2, hrng.1, hrng.2, h.symm, Or.inr ⟨?_, ?_⟩⟩
        · unfold digitVal
          omega
        · have e1 : digitChar (digitVal h1) = h1 := digitChar_digitVal hd1.1 hd1.2
          have hm2' : digitVal m2 ≤ 9 := by unfold digitVal; omega
          have e2 : (10 * digitVal m1 + digitVal m2) / 10 = digitVal m1 := by omega
          have e3 : (10 * digitVal m1 + digitVal m2) % 10 = digitVal m2 := by omega
          rw [e1, e2, e3, digitChar_digitVal hm1.1 hm1.2, digitChar_digitVal hm2.1 hm2.2]
  | [h1, h2, c, m1, m2], v, h => by
    simp only [timeToMinutesList] at h
    split at h
    case isFalse => cases h
    case isTrue hcnd =>
      split at h
      case isFalse => cases h
      case isTrue hrng =>
        rw [Option.some.injEq] at h
        simp only [Bool.and_eq_true, beq_iff_eq, isDigitChar, decide_eq_true_eq] at hcnd hrng
        obtain ⟨⟨⟨⟨hd1, hd2⟩, hc⟩, hm1⟩, hm2⟩ := hcnd
        subst hc
        refine ⟨10 * digitVal h1 + digitVal h2, 10 * digitVal m1 + digitVal m2,
          hrng.1, hrng.2, h.symm, Or.inl ?_⟩
        have hh2' : digitVal h2 ≤ 9 := by unfold digitVal; omega
        have hm2' : digitVal m2 ≤ 9 := by unfold digitVal; omega
        have e1 : (10 * digitVal h1 + digitVal h2) / 10 = digitVal h1 := by omega
        have e2 : (10 * digitVal h1 + digitVal h2) % 10 = digitVal h2 := by omega
        have e3 : (10 * digitVal m1 + digitVal m2) / 10 = digitVal m1 := by omega
        have e4 : (10 * digitVal m1 + digitVal m2) % 10 = digitVal m2 := by omega
        rw [e1, e2, e3, e4, digitChar_digitVal hd1.1 hd1.2, digitChar_digitVal hd2.1 hd2.2,
          digitChar_digitVal hm1.1 hm1.2, digitChar_digitVal hm2.1 hm2.2]
  | [], _, h => by cases h
  | [_], _, h => by cases h
  | [_, _], _, h => by cases h
  | [_, _, _], _, h => by cases h
  | _ :: _ :: _ :: _ :: _ :: _ :: _, _, h => by cases h

theorem timeToMinutes_renderTime2 {h m : Nat} (hh : h ≤ 23) (hm : m ≤ 59) :
    timeToMinutes (renderTime2 h m) = some (h * 60 + m) := by
  have d1 : h / 10 ≤ 9 := by omega
  have d2 : h % 10 ≤ 9 := by omega
  have d3 : m / 10 ≤ 9 := by omega
  have d4 : m % 10 ≤ 9 := by omega
  show timeToMinutesList [digitChar (h / 10), digitChar (h % 10), ':',
    digitChar (m / 10), digitChar (m % 10)] = some (h * 60 + m)
  simp only [timeToMinutesList, isDigitChar_digitChar d1, isDigitChar_digitChar d2,
    isDigitChar_digitChar d3, isDigitChar_digitChar d4, digitVal_digitChar d1,
    digitVal_digitChar d2, digitVal_digitChar d3, digitVal_digitChar d4]
  have e1 : 10 * (h / 10) + h % 10 = h := by omega
  have e2 : 10 * (m / 10) + m % 10 = m := by omega
  rw [e1, e2]
  simp [hh, hm]

/-- Counterexample to claim C7 as stated: the ListingForm implementation of
the parser returns the usable minute count 1500 for the out-of-range input
25:00 instead of its invalid marker -1 (the App implementation rejects it). -/
theorem formTimeToMinutes_out_of_range_usable :
    formTimeToMinutes "25:00" = 1500 ∧ (1500 : Int) ≠ -1 ∧
      timeToMinutes "25:00" = none := by decide

/-- Claim C7 (amended): the App and ConfirmationModal implementation of
timeToMinutes returns a value exactly on HH:MM or H:MM strings with hour at
most 23 and minute at most 59, and that value is hours*60+minutes; the
ListingForm implementation, however, performs no range check and returns a
usable count such as 1500 for 25:00, its -1 marker covering only strings
that do not split into two parseInt-able parts. -/
theorem timeToMinutes_parsers_spec :
    (∀ (s : String) (v : Nat), timeToMinutes s = some v →
        ∃ hh mm, hh ≤ 23 ∧ mm ≤ 59 ∧ v = hh * 60 + mm ∧
          (s = renderTime2 hh mm ∨ (hh ≤ 9 ∧ s = renderTime1 hh mm)))
    ∧ (∀ h m : Nat, h ≤ 23 → m ≤ 59 → timeToMinutes (renderTime2 h m) = some (h * 60 + m))
    ∧ formTimeToMinutes "25:00" = 1500 := by
  refine ⟨?_, fun h m hh hm => timeToMinutes_renderTime2 hh hm, by decide⟩
  intro s v h
  obtain ⟨hh, mm, h1, h2, h3, h4⟩ := timeToMinutesList_some_inv h
  refine ⟨hh, mm, h1, h2, h3, ?_⟩
  rcases h4 with h4 | ⟨h5, h4⟩
  · refine Or.inl ?_
    apply String.ext
    exact h4
  · refine Or.inr ⟨h5, ?_⟩
    apply String.ext
    exact h4

/-- Witness for C7 (amended): rendering 12:34 parses back to 754, and the
parse of 09:30 is inverted by the characterization. -/
theorem timeToMinutes_parsers_spec_witness :
    timeToMinutes (renderTime2 12 34) = some 754 ∧
      ∃ hh mm, hh ≤ 23 ∧ mm ≤ 59 ∧ 570 = hh * 60 + mm ∧
        ("09:30" = renderTime2 hh mm ∨ (hh ≤ 9 ∧ "09:30" = renderTime1 hh mm)) := by
  constructor
  · exact timeToMinutes_parsers_spec.2.1 12 34 (by decide) (by decide)
  · exact timeToMinutes_parsers_spec.1 "09:30" 570 (by decide)

/-! ## The updateListing cascade (claim C3) -/

/-- Counterexample to claim C3 as stated: shrinking the window 8:00-17:00
down to 8:00-12:00 on the same date cancels the pending booking 9:00-9:30
even though its window is fully contained in the new window, because the
source compares the raw time strings lexicographically and the one-digit
hour mis-orders. -/
theorem updateListing_cancels_contained_booking :
    ContainedInWindow exShrinkBooking exShrinkData ∧
      exShrinkData.date = exShrinkBooking.date ∧
      exShrinkBooking.status = BookingStatus.pending ∧
      exShrinkBooking ∉ (updateListing exStShrink 1 exShrinkData).bookings ∧
      { exShrinkBooking with status := BookingStatus.canceled_by_owner } ∈
        (updateListing exStShrink 1 exShrinkData).bookings := by
  refine ⟨⟨540, 570, 480, 720, by decide, by decide, by decide, by decide,
    by decide, by decide⟩, by decide, by decide, by decide, by decide⟩

/-- Claim C3 (amended): on an updateListing over the same date, an active
(pending or confirmed) booking on that (listingId, date) whose four time
strings are all zero-padded HH:MM values is left entirely untouched when
its window is contained in the new window, and becomes canceled_by_owner
when it is not; on padded strings the code's lexicographic comparison
agrees with the minute order. -/
theorem updateListing_cascade_padded (st : AppState) (lid : Nat) (d : ListingData)
    (bk : Booking) (hu : UniqueIds st) (hmem : bk ∈ st.bookings)
    (hlid : bk.listingId = lid) (hdate : bk.date = d.date)
    (hactive : bk.status = BookingStatus.pending ∨ bk.status = BookingStatus.confirmed)
    (hv1 : isValidPaddedTime bk.startTime = true) (hv2 : isValidPaddedTime bk.endTime = true)
    (hv3 : isValidPaddedTime d.startTime = true) (hv4 : isValidPaddedTime d.endTime = true) :
    (ContainedInWindow bk d →
        bk ∈ (updateListing st lid d).bookings ∧
        ∀ x ∈ (updateListing st lid d).bookings, x.id = bk.id → x = bk)
    ∧ (¬ ContainedInWindow bk d →
        { bk with status := BookingStatus.canceled_by_owner } ∈
          (updateListing st lid d).bookings ∧
        ∀ x ∈ (updateListing st lid d).bookings, x.id = bk.id →
          x = { bk with status := BookingStatus.canceled_by_owner }) := by
  have e1 : timeToMinutes bk.startTime = some (paddedVal bk.startTime.data) :=
    timeToMinutes_of_validPadded hv1
  have e2 : timeToMinutes bk.endTime = some (paddedVal bk.endTime.data) :=
    timeToMinutes_of_validPadded hv2
  have e3 : timeToMinutes d.startTime = some (paddedVal d.startTime.data) :=
    timeToMinutes_of_validPadded hv3
  have e4 : timeToMinutes d.endTime = some (paddedVal d.endTime.data) :=
    timeToMinutes_of_validPadded hv4
  have hciff : ContainedInWindow bk d ↔
      (paddedVal d.startTime.data ≤ paddedVal bk.startTime.data ∧
        paddedVal bk.endTime.data ≤ paddedVal d.endTime.data) := by
    constructor
    · rintro ⟨a, b, c, dd, ea, eb, ec, ed, l1, l2⟩
      rw [e1] at ea
      rw [e2] at eb
      rw [e3] at ec
      rw [e4] at ed
      injection ea with ea
      injection eb with eb
      injection ec with ec
      injection ed with ed
      subst ea
      subst eb
      subst ec
      subst ed
      exact ⟨l1, l2⟩
    · rintro ⟨l1, l2⟩
      exact ⟨_, _, _, _, e1, e2, e3, e4, l1, l2⟩
  have hs1 := strLt_iff_lt_minutes hv1 hv3 e1 e3
  have hs2 := strLt_iff_lt_minutes hv4 hv2 e4 e2
  have hstat : (decide (bk.status = BookingStatus.confirmed)
      || decide (bk.status = BookingStatus.pending)) = true := by
    rcases hactive with h | h <;> simp [h]
  have hdd : (!decide (d.date = bk.date)) = false := by simp [hdate]
  have hcc : cancelCond d bk = true ↔
      ¬ (paddedVal d.startTime.data ≤ paddedVal bk.startTime.data ∧
        paddedVal bk.endTime.data ≤ paddedVal d.endTime.data) := by
    unfold cancelCond
    simp only [hstat, Bool.and_true, hdd, Bool.false_or, Bool.or_eq_true]
    rw [hs1, hs2]
    omega
  have hin : bk ∈ getExistingBookingsForListing st lid d.date :=
    mem_getExisting.mpr ⟨hmem, hlid, hdate⟩
  have hany : ((getExistingBookingsForListing st lid d.date).any
      (fun x => cancelCond d x && decide (x.id = bk.id)) = true) ↔
      cancelCond d bk = true := by
    rw [List.any_eq_true]
    constructor
    · rintro ⟨x, hx, hpx⟩
      rw [Bool.and_eq_true, decide_eq_true_eq] at hpx
      have hxm := (mem_getExisting.mp hx).1
      have hxbk : x = bk := eq_of_mem_of_pairwise_ne hu hxm hmem hpx.2
      rw [← hxbk]
      exact hpx.1
    · intro hcd
      exact ⟨bk, hin, by simp [hcd]⟩
  have hflag : (getExistingBookingsForListing st lid d.date).any
      (fun x => cancelCond d x && decide (x.id = bk.id)) = cancelCond d bk := by
    cases hcd : cancelCond d bk
    · cases ha2 : (getExistingBookingsForListing st lid d.date).any
          (fun x => cancelCond d x && decide (x.id = bk.id))
      · rfl
      · have := hany.mp ha2
        rw [hcd] at this
        cases this
    · exact hany.mpr hcd
  constructor
  · intro hcont
    have hcd : cancelCond d bk = false := by
      cases h2 : cancelCond d bk
      · rfl
      · exact absurd (hciff.mp hcont) (hcc.mp h2)
    constructor
    · rw [updateListing_bookings]
      refine List.mem_map.mpr ⟨bk, hmem, ?_⟩
      dsimp only
      rw [hflag, hcd]
      simp
    · intro x hx hid
      rw [updateListing_bookings] at hx
      obtain ⟨y, hy, rfl⟩ := List.mem_map.mp hx
      have hyid : y.id = bk.id := by
        revert hid
        split <;> intro hid <;> exact hid
      have hybk : y = bk := eq_of_mem_of_pairwise_ne hu hy hmem hyid
      subst hybk
      rw [hflag, hcd]
      simp
  · intro hncont
    have hcd : cancelCond d bk = true := hcc.mpr (fun hpair => hncont (hciff.mpr hpair))
    constructor
    · rw [updateListing_bookings]
      refine List.mem_map.mpr ⟨bk, hmem, ?_⟩
      dsimp only
      rw [hflag, hcd]
      simp
    · intro x hx hid
      rw [updateListing_bookings] at hx
      obtain ⟨y, hy, rfl⟩ := List.mem_map.mp hx
      have hyid : y.id = bk.id := by
        revert hid
        split <;> intro hid <;> exact hid
      have hybk : y = bk := eq_of_mem_of_pairwise_ne hu hy hmem hyid
      subst hybk
      rw [hflag, hcd]
      simp

/-- Witness for C3 (amended): the padded shrink from 09:00-17:00 down to
09:00-12:00 cancels the confirmed 13:00-15:00 booking and leaves the
pending 09:30-11:00 booking untouched. -/
theorem updateListing_cascade_padded_witness :
    ({ exPadBooking with status := BookingStatus.canceled_by_owner } ∈
        (updateListing exStPad 1 exPadData).bookings) ∧
      exPadBooking2 ∈ (updateListing exStPad 1 exPadData).bookings := by
  have hu : UniqueIds exStPad := by
    unfold UniqueIds
    decide
  have h1 := updateListing_cascade_padded exStPad 1 exPadData exPadBooking hu
    (by decide) (by decide) (by decide) (by decide) (by decide) (by decide)
    (by decide) (by decide)
  have h2 := updateListing_cascade_padded exStPad 1 exPadData exPadBooking2 hu
    (by decide) (by decide) (by decide) (by decide) (by decide) (by decide)
    (by decide) (by decide)
  have hnc : ¬ ContainedInWindow exPadBooking exPadData := by
    rintro ⟨a, b, c, dd, _, eb, _, ed, _, l2⟩
    have hb : timeToMinutes exPadBooking.endTime = some 900 := by decide
    have hd : timeToMinutes exPadData.endTime = some 720 := by decide
    rw [hb] at eb
    rw [hd] at ed
    injection eb with eb
    injection ed with ed
    omega
  have hcont : ContainedInWindow exPadBooking2 exPadData :=
    ⟨570, 660, 540, 720, by decide, by decide, by decide, by decide, by decide, by decide⟩
  exact ⟨(h1.2 hnc).1, (h2.1 hcont).1⟩

/-! ## Duplicate-listing rejection (claim C9) -/

theorem mem_checkForExisting {st : AppState} {d : ListingData} {l : Listing} :
    l ∈ checkForExistingListing st d ↔
      l ∈ st.listings ∧ l.address = d.address ∧ l.city = d.city ∧
        l.zipCode = d.zipCode ∧ l.date = d.date := by
  simp [checkForExistingListing, List.mem_filter, and_assoc]

theorem addListing_eq (st : AppState) (d : ListingData) (i : Nat) :
    addListing st d i =
      if (checkForExistingListing st d).any
          (fun existing => strLt d.startTime existing.endTime
            && strLt existing.startTime d.endTime)
      then (AddListingResult.duplicate, st)
      else (AddListingResult.added,
        { st with listings := mkListing i d :: st.listings }) := rfl

/-- Counterexample to claim C9 as stated: the existing 10:00-12:00 listing
at the identical address, city, zip and date truly overlaps the new
9:00-11:00 window, yet addListing reports added and inserts the listing,
because the raw string comparison mis-orders the unpadded one-digit hour. -/
theorem addListing_misses_overlap_unpadded :
    (∃ l ∈ exStDup.listings, l.address = exDupData.address ∧ l.city = exDupData.city ∧
        l.zipCode = exDupData.zipCode ∧ l.date = exDupData.date ∧
        WindowsOverlap exDupData.startTime exDupData.endTime l.startTime l.endTime) ∧
      (addListing exStDup exDupData 2).1 = AddListingResult.added ∧
      (addListing exStDup exDupData 2).2.listings =
        mkListing 2 exDupData :: exStDup.listings := by
  refine ⟨⟨exDupListing, by decide, by decide, by decide, by decide, by decide,
    540, 660, 600, 720, by decide, by decide, by decide, by decide, by decide, by decide⟩,
    by decide, by decide⟩

/-- Claim C9 (amended): when the new listing's window and the windows of
every existing listing matching (address, city, zipCode, date) are
zero-padded HH:MM times, addListing reports duplicate (and inserts nothing)
exactly when some matching listing's window strictly overlaps the new
window, and otherwise reports added and prepends the new listing; on padded
strings the code's lexicographic comparison agrees with the minute order. -/
theorem addListing_duplicate_gate_padded (st : AppState) (d : ListingData) (newId : Nat)
    (hv1 : isValidPaddedTime d.startTime = true) (hv2 : isValidPaddedTime d.endTime = true)
    (hall : ∀ l ∈ st.listings, l.address = d.address → l.city = d.city →
      l.zipCode = d.zipCode → l.date = d.date →
      isValidPaddedTime l.startTime = true ∧ isValidPaddedTime l.endTime = true) :
    ((addListing st d newId).1 = AddListingResult.duplicate ↔
      ∃ l ∈ st.listings, l.address = d.address ∧ l.city = d.city ∧
        l.zipCode = d.zipCode ∧ l.date = d.date ∧
        WindowsOverlap d.startTime d.endTime l.startTime l.endTime)
    ∧ ((addListing st d newId).1 = AddListingResult.duplicate →
        (addListing st d newId).2 = st)
    ∧ ((addListing st d newId).1 = AddListingResult.added →
        (addListing st d newId).2.listings = mkListing newId d :: st.listings) := by
  have e1 : timeToMinutes d.startTime = some (paddedVal d.startTime.data) :=
    timeToMinutes_of_validPadded hv1
  have e2 : timeToMinutes d.endTime = some (paddedVal d.endTime.data) :=
    timeToMinutes_of_validPadded hv2
  have hmain : ((checkForExistingListing st d).any
      (fun existing => strLt d.startTime existing.endTime
        && strLt existing.startTime d.endTime) = true) ↔
      ∃ l ∈ st.listings, l.address = d.address ∧ l.city = d.city ∧
        l.zipCode = d.zipCode ∧ l.date = d.date ∧
        WindowsOverlap d.startTime d.endTime l.startTime l.endTime := by
    rw [List.any_eq_true]
    constructor
    · rintro ⟨l, hl, hp⟩
      obtain ⟨hm, ha, hc, hz, hdt⟩ := mem_checkForExisting.mp hl
      obtain ⟨hl1, hl2⟩ := hall l hm ha hc hz hdt
      have e3 : timeToMinutes l.startTime = some (paddedVal l.startTime.data) :=
        timeToMinutes_of_validPadded hl1
      have e4 : timeToMinutes l.endTime = some (paddedVal l.endTime.data) :=
        timeToMinutes_of_validPadded hl2
      rw [Bool.and_eq_true] at hp
      have g1 := (strLt_iff_lt_minutes hv1 hl2 e1 e4).mp hp.1
      have g2 := (strLt_iff_lt_minutes hl1 hv2 e3 e2).mp hp.2
      exact ⟨l, hm, ha, hc, hz, hdt, _, _, _, _, e1, e2, e3, e4, g1, g2⟩
    · rintro ⟨l, hm, ha, hc, hz, hdt, a, b, c, dd, ea, eb, ec, ed, g1, g2⟩
      obtain ⟨hl1, hl2⟩ := hall l hm ha hc hz hdt
      have e3 : timeToMinutes l.startTime = some (paddedVal l.startTime.data) :=
        timeToMinutes_of_validPadded hl1
      have e4 : timeToMinutes l.endTime = some (paddedVal l.endTime.data) :=
        timeToMinutes_of_validPadded hl2
      rw [e1] at ea
      rw [e2] at eb
      rw [e3] at ec
      rw [e4] at ed
      injection ea with ea
      injection eb with eb
      injection ec with ec
      injection ed with ed
      subst ea
      subst eb
      subst ec
      subst ed
      refine ⟨l, mem_checkForExisting.mpr ⟨hm, ha, hc, hz, hdt⟩, ?_⟩
      dsimp only
      rw [Bool.and_eq_true]
      exact ⟨(strLt_iff_lt_minutes hv1 hl2 e1 e4).mpr g1,
        (strLt_iff_lt_minutes hl1 hv2 e3 e2).mpr g2⟩
  have hfst : (addListing st d newId).1 = AddListingResult.duplicate ↔
      ((checkForExistingListing st d).any
        (fun existing => strLt d.startTime existing.endTime
          && strLt existing.startTime d.endTime) = true) := by
    rw [addListing_eq]
    cases hdup : (checkForExistingListing st d).any
        (fun existing => strLt d.startTime existing.endTime
          && strLt existing.startTime d.endTime) <;> simp [hdup]
  refine ⟨hfst.trans hmain, ?_, ?_⟩
  · intro hd2
    rw [addListing_eq, if_pos (hfst.mp hd2)]
  · intro hadd
    have hc : (checkForExistingListing st d).any
        (fun existing => strLt d.startTime existing.endTime
          && strLt existing.startTime d.endTime) = false := by
      cases hdup : (checkForExistingListing st d).any
          (fun existing => strLt d.startTime existing.endTime
            && strLt existing.startTime d.endTime)
      · rfl
      · have hcf := hfst.mpr hdup
        rw [hadd] at hcf
        cases hcf
    rw [addListing_eq, if_neg]
    simp [hc]

/-- Witness for C9 (amended): on padded inputs against the 10:00-12:00
listing, the overlapping 11:00-13:00 payload is rejected as duplicate with
nothing inserted, and the touching 12:00-14:00 payload is inserted. -/
theorem addListing_duplicate_gate_padded_witness :
    (addListing exStDup exDupDataPad 2).1 = AddListingResult.duplicate ∧
      (addListing exStDup exDupDataPad 2).2 = exStDup ∧
      (addListing exStDup exDupDataFree 3).1 = AddListingResult.added ∧
      (addListing exStDup exDupDataFree 3).2.listings =
        mkListing 3 exDupDataFree :: exStDup.listings := by
  have h1 := addListing_duplicate_gate_padded exStDup exDupDataPad 2
    (by decide) (by decide) (by decide)
  have h2 := addListing_duplicate_gate_padded exStDup exDupDataFree 3
    (by decide) (by decide) (by decide)
  have hdup : (addListing exStDup exDupDataPad 2).1 = AddListingResult.duplicate := by
    refine h1.1.mpr ⟨exDupListing, by decide, by decide, by decide, by decide, by decide,
      660, 780, 600, 720, by decide, by decide, by decide, by decide, by decide, by decide⟩
  have hadd : (addListing exStDup exDupDataFree 3).1 = AddListingResult.added := by decide
  exact ⟨hdup, h1.2.1 hdup, hadd, h2.2.2 hadd⟩

end DriveBay
